import Mathlib

/-!
Verification of the image-signature attestation engine of the
k8s-sigstore-attestor repository, as a shallow embedding in Lean 4.

The embedding covers two Go packages:

* `sigstorecache` — the bounded recency-ordered cache
  (`Item`, `Cacheimpl`, `NewCache`, `GetSignature`, `PutSignature`,
  `getElement`).
* `sigstore` — the attestation engine
  (`getSignatureSubject`, `certSubject`, `getBundleSignatureContent`,
  `SelectorValuesFromSignature`, `ExtractSelectorsFromSignatures`,
  `ShouldSkipImage`, `ValidateImage`, `validateRefDigest`,
  `FetchImageSignatures`, `AttestContainerSignatures`, `SetRekorURL`,
  and the older variant's `getOnlySubject`).

External collaborators (the registry client, the cosign verify function,
`net/url` parsing, `encoding/json` unmarshalling, base64 decoding and the
SHA-256 hash) are modelled as explicit inputs: each embedded function takes
the collaborator's result as a parameter, exactly where the Go code calls
out to it.  Go's `(value, error)` returns are modelled with `Except`;
runtime panics (out-of-range indexing, nil dereference) are modelled by an
explicit `GoRes.crash` constructor so that partiality of the source is
visible in the embedding.
-/

namespace Sigstorecache

/-- `Item` from sigstorecache: a key/value pair.  The value type is a
parameter because the repository has two historical variants (one caches
`[]oci.Signature`, the engine in `sigstore.go` caches
`[]SelectorsFromSignatures`); the cache code never inspects the value. -/
structure Item (α : Type) where
  key : String
  value : α
deriving Repr, DecidableEq

/-- `Cacheimpl`: fixed capacity `size` plus the recency list `items`.
The Go `container/list` doubly-linked list is modelled as a `List` whose
head is the front (most recently used) element. -/
structure Cacheimpl (α : Type) where
  size : Nat
  items : List (Item α)
deriving Repr, DecidableEq

/-- `NewCache(maximumAmountCache)`: empty list, given capacity. -/
def NewCache (α : Type) (maximumAmountCache : Nat) : Cacheimpl α :=
  { size := maximumAmountCache, items := [] }

/-- `getElement`: linear scan from the front returning the first item with
the given key (`nil` if absent). -/
def getElement (c : Cacheimpl α) (key : String) : Option (Item α) :=
  c.items.find? (fun i => i.key == key)

/-- `GetSignature`: absent key returns `nil`; a present key's element is
moved to the front (most recently used) and the item is returned.
Moving the element found by `getElement` to the front is: remove the first
item with the key, re-insert it at the head. -/
def GetSignature (c : Cacheimpl α) (key : String) : Option (Item α) × Cacheimpl α :=
  match getElement c key with
  | none => (none, c)
  | some it => (some it, { c with items := it :: c.items.eraseP (fun i => i.key == key) })

/-- `PutSignature`: if the key already exists the found element is moved to
the front and the function returns — the stored value is left as it was
(the argument's value is NOT written).  Otherwise, when the list is at
capacity the back element is removed (`Remove(Back())`, i.e. `dropLast`
on a non-empty list), and the new item is pushed to the front. -/
def PutSignature (c : Cacheimpl α) (i : Item α) : Cacheimpl α :=
  match getElement c i.key with
  | some it => { c with items := it :: c.items.eraseP (fun j => j.key == i.key) }
  | none =>
    let base := if c.items.length == c.size then c.items.dropLast else c.items
    { c with items := i :: base }

/-- Fold a list of puts over a cache, in order. -/
def putAll (c : Cacheimpl α) (its : List (Item α)) : Cacheimpl α :=
  its.foldl PutSignature c

/-- A single cache operation, for stating invariants over call sequences. -/
inductive CacheOp (α : Type) where
  | get (key : String)
  | put (i : Item α)

/-- Apply one operation, keeping only the resulting cache state. -/
def applyOp (c : Cacheimpl α) : CacheOp α → Cacheimpl α
  | CacheOp.get k => (GetSignature c k).2
  | CacheOp.put i => PutSignature c i

/-- Run a sequence of operations from a starting state. -/
def runOps (c : Cacheimpl α) (ops : List (CacheOp α)) : Cacheimpl α :=
  ops.foldl applyOp c

end Sigstorecache

deriving instance DecidableEq for Except

namespace Sigstore

open Sigstorecache

/-- Outcome of a Go computation that may return an error value or abort
with a runtime panic.  `err` models a returned non-nil `error`; `crash`
models a panic (index out of range, nil dereference). -/
inductive GoRes (α : Type) where
  | ok (a : α)
  | err (msg : String)
  | crash (msg : String)
deriving Repr, DecidableEq

/-- A JSON value stored in the payload's `optional` map; the source only
ever type-asserts `string`, so other shapes are collapsed into `other`. -/
inductive JsonVal where
  | str (s : String)
  | other
deriving Repr, DecidableEq

/-- `payload.SimpleContainerImage`, restricted to the one field the source
reads: the `optional` map (`nil` map modelled as `none`). -/
structure SimpleContainerImage where
  optional : Option (List (String × JsonVal))
deriving Repr, DecidableEq

/-- An x509 certificate, restricted to the two fields `certSubject` reads.
A Go nil slice is `none`; a present slice (possibly empty) is `some`.
`uris` holds the strings produced by `URL.String()`. -/
structure Cert where
  emailAddresses : Option (List String)
  uris : Option (List String)
deriving Repr, DecidableEq

/-- The transparency-log bundle payload.  `bodyContent` models the chain
`Body.(string)` / base64-decode / `json.Unmarshal` / `Spec.Signature.Content`
performed by `getBundleSignatureContent`: `Except.error` covers a non-string
body, bad base64 and bad JSON; `Except.ok` carries the decoded content
string (possibly empty). -/
structure BundlePayload where
  bodyContent : Except String String
  logID : String
  integratedTime : Int
deriving Repr, DecidableEq

structure Bundle where
  payload : BundlePayload
deriving Repr, DecidableEq

/-- An `oci.Signature` as the engine observes it: the four accessor calls
`Payload()`, `json.Unmarshal` of those bytes, `Cert()` and `Bundle()`,
each of which can fail.  The unmarshal result is part of the model because
`encoding/json` is an external collaborator. -/
structure Signature where
  payload : Except String String
  unmarshal : Except String SimpleContainerImage
  cert : Except String (Option Cert)
  bundle : Except String (Option Bundle)
deriving Repr, DecidableEq

/-- The regex replacement `^\/*(?P<email>.*)` -> `$email` used on
`c.URIs[0].String()`: it deletes every leading `/` of the string (the
anchored match consumes the leading slashes and keeps the rest; later
positions cannot match the `^` anchor). -/
def stripLeadingSlashes (s : String) : String :=
  String.mk (s.toList.dropWhile (fun c => c == '/'))

/-- `certSubject`: nil certificate gives `""`; a non-nil email slice is
indexed at 0 (a present-but-empty slice panics); else a non-nil URI slice
is indexed at 0 and stripped of leading slashes (present-but-empty
panics); else `""`. -/
def certSubject : Option Cert → GoRes String
  | none => GoRes.ok ""
  | some c =>
    match c.emailAddresses with
    | some [] => GoRes.crash "index out of range [0] with length 0"
    | some (e :: _) => GoRes.ok e
    | none =>
      match c.uris with
      | some [] => GoRes.crash "index out of range [0] with length 0"
      | some (u :: _) => GoRes.ok (stripLeadingSlashes u)
      | none => GoRes.ok ""

/-- The payload-default subject of `getSignatureSubject` (source lines
152-158): `""` unless the `optional` map is non-nil and holds a string
under `"subject"`. -/
def payloadSubject (ss : SimpleContainerImage) : String :=
  match ss.optional with
  | none => ""
  | some m =>
    match m.lookup "subject" with
    | some (JsonVal.str s) => s
    | _ => ""

/-- `getSignatureSubject`: nil signature errors; `Payload()`, unmarshal and
`Cert()` errors are returned as errors; otherwise the payload subject is
the default and a non-nil certificate overrides it via `certSubject`. -/
def getSignatureSubject : Option Signature → GoRes String
  | none => GoRes.err "Signature is nil"
  | some s =>
    match s.payload with
    | Except.error e => GoRes.err e
    | Except.ok _ =>
      match s.unmarshal with
      | Except.error e => GoRes.err e
      | Except.ok ss =>
        match s.cert with
        | Except.error e => GoRes.err ("Error acessing the certificate" ++ e)
        | Except.ok co =>
          match co with
          | none => GoRes.ok (payloadSubject ss)
          | some c => certSubject (some c)

/-- `getBundleSignatureContent`: nil bundle errors; body decode failures
error; an empty decoded content string errors; else the content. -/
def getBundleSignatureContent : Option Bundle → Except String String
  | none => Except.error "Bundle is nil"
  | some b =>
    match b.payload.bodyContent with
    | Except.error e => Except.error e
    | Except.ok content =>
      if content == "" then Except.error "Bundle payload body has no signature content"
      else Except.ok content

/-- `SelectorsFromSignatures`. -/
structure SelectorsFromSignatures where
  subject : String
  content : String
  logID : String
  integratedTime : String
  verified : Bool
deriving Repr, DecidableEq

/-- The Go zero value `var selectorsFromSignatures SelectorsFromSignatures`. -/
def emptySelectors : SelectorsFromSignatures :=
  { subject := "", content := "", logID := "", integratedTime := "", verified := false }

/-- `SelectorValuesFromSignature`: subject-extraction errors and an empty
subject yield the zero record (the error is only logged); an allow-list
miss (when enabled) suppresses the record; otherwise subject and
`verified := true` are set and bundle metadata is added when available.
Go's `fmt.Sprintf("%d", t)` is `toString t`.  A `Bundle()` result of
`(nil, nil)` panics at `bundle.Payload.LogID` after the content error is
logged. -/
def SelectorValuesFromSignature (allowListEnabled : Bool)
    (subjectAllowList : Option (List String)) (sig : Option Signature)
    (_containerID : String) : GoRes SelectorsFromSignatures :=
  match getSignatureSubject sig with
  | GoRes.crash m => GoRes.crash m
  | GoRes.err _ => GoRes.ok emptySelectors
  | GoRes.ok subject =>
    if subject == "" then GoRes.ok emptySelectors
    else
      let inAllowList :=
        match subjectAllowList with
        | some l => l.contains subject
        | none => false
      let suppress := allowListEnabled && !inAllowList
      if suppress then GoRes.ok emptySelectors
      else
        match sig with
        | none => GoRes.ok emptySelectors
        | some s =>
          let base := { emptySelectors with subject := subject, verified := true }
          match s.bundle with
          | Except.error _ => GoRes.ok base
          | Except.ok bundleOpt =>
            let withContent :=
              match getBundleSignatureContent bundleOpt with
              | Except.error _ => base
              | Except.ok c => { base with content := c }
            match bundleOpt with
            | none => GoRes.crash "invalid memory address or nil pointer dereference"
            | some b =>
              let withLog :=
                if b.payload.logID != "" then { withContent with logID := b.payload.logID }
                else withContent
              let withTime :=
                if b.payload.integratedTime != 0 then
                  { withLog with integratedTime := toString b.payload.integratedTime }
                else withLog
              GoRes.ok withTime

/-- The loop body of `ExtractSelectorsFromSignatures`: each signature's
record is computed and appended only when `Verified`; a panic unwinds. -/
def extractLoop (allowListEnabled : Bool) (subjectAllowList : Option (List String))
    (containerID : String) : List Signature → GoRes (List SelectorsFromSignatures)
  | [] => GoRes.ok []
  | s :: rest =>
    match SelectorValuesFromSignature allowListEnabled subjectAllowList (some s) containerID with
    | GoRes.crash m => GoRes.crash m
    | GoRes.err m => GoRes.err m
    | GoRes.ok sel =>
      match extractLoop allowListEnabled subjectAllowList containerID rest with
      | GoRes.crash m => GoRes.crash m
      | GoRes.err m => GoRes.err m
      | GoRes.ok sels => GoRes.ok (if sel.verified then sel :: sels else sels)

/-- `ExtractSelectorsFromSignatures`: nil input returns nil immediately,
else the loop over the list. -/
def ExtractSelectorsFromSignatures (allowListEnabled : Bool)
    (subjectAllowList : Option (List String)) (signatures : Option (List Signature))
    (containerID : String) : GoRes (List SelectorsFromSignatures) :=
  match signatures with
  | none => GoRes.ok []
  | some sigs => extractLoop allowListEnabled subjectAllowList containerID sigs

end Sigstore

namespace Sigstore

/-- `ShouldSkipImage` returns Go's `(bool, error)` pair: nil skip list gives
`(false, nil)`; a non-nil skip list with an empty image ID gives
`(false, error)`; else membership decides the bool. -/
def ShouldSkipImage (skippedImages : Option (List String)) (imageID : String) :
    Bool × Option String :=
  match skippedImages with
  | none => (false, none)
  | some l =>
    if imageID == "" then (false, some "Image ID is empty")
    else if l.contains imageID then (true, none)
    else (false, none)

/-- An image reference (`name.Reference`): either digest-qualified
(`name.Digest`, carrying `DigestStr()`) or tag-qualified. -/
inductive Ref where
  | dig (repo : String) (digestStr : String)
  | tag (repo : String) (tagStr : String)
deriving Repr, DecidableEq

/-- `ref.String()`, used in the not-a-digest error message. -/
def refString : Ref → String
  | Ref.dig repo d => repo ++ "@" ++ d
  | Ref.tag repo t => repo ++ ":" ++ t

/-- A `remote.Descriptor`, restricted to the manifest bytes (`nil` possible). -/
structure Descriptor where
  manifest : Option (List Nat)
deriving Repr, DecidableEq

/-- `validateRefDigest`: digest references succeed exactly when the digest
strings agree, otherwise a mismatch error; non-digest references error. -/
def validateRefDigest (ref : Ref) (digest : String) : Except String Bool :=
  match ref with
  | Ref.dig _ d =>
    if d == digest then Except.ok true
    else Except.error ("Digest " ++ digest ++ " does not match " ++ d)
  | Ref.tag _ _ => Except.error ("Reference " ++ refString ref ++ " is not a digest")

/-- `ValidateImage`: fetch the manifest (error propagates), reject a nil
manifest, hash the manifest bytes (`v1.SHA256`, modelled by the `sha256`
parameter; it cannot fail on an in-memory reader) and compare with the
reference digest. -/
def ValidateImage (fetchImageManifest : Ref → Except String Descriptor)
    (sha256 : List Nat → String) (ref : Ref) : Except String Bool :=
  match fetchImageManifest ref with
  | Except.error e => Except.error e
  | Except.ok desc =>
    match desc.manifest with
    | none => Except.error "Manifest is nil"
    | some m => validateRefDigest ref (sha256 m)

/-- The triple returned by the external `verifyFunction`
(`[]oci.Signature, bool, error`); a nil signature slice is `none`. -/
structure VerifyOut where
  sigs : Option (List Signature)
  verified : Bool
  errMsg : Option String

/-- `FetchImageSignatures`: parse the reference, validate it, then call the
verify function; fail on a verify error, and fail when the bundle is not
verified, even if signatures were returned. -/
def FetchImageSignatures (parseReference : String → Except String Ref)
    (fetchImageManifest : Ref → Except String Descriptor) (sha256 : List Nat → String)
    (verifyFunction : Ref → VerifyOut) (imageName : String) :
    Except String (Option (List Signature)) :=
  match parseReference imageName with
  | Except.error e => Except.error ("Error parsing image reference: " ++ e)
  | Except.ok ref =>
    match ValidateImage fetchImageManifest sha256 ref with
    | Except.error e => Except.error ("Could not validate image reference digest: " ++ e)
    | Except.ok _ =>
      let out := verifyFunction ref
      match out.errMsg with
      | some e => Except.error ("Error verifying signature: " ++ e)
      | none =>
        if out.verified then Except.ok out.sigs
        else Except.error ("Bundle not verified for " ++ imageName)

def signatureVerifiedSelector : String := "sigstore-validation:passed"

/-- `selectorsToString`: up to four colon-delimited strings scoped by the
container ID, each emitted only when its field is non-empty. -/
def selectorsToString (selectors : SelectorsFromSignatures) (containerID : String) :
    List String :=
  (if selectors.subject != "" then
    [containerID ++ ":image-signature-subject:" ++ selectors.subject] else []) ++
  (if selectors.content != "" then
    [containerID ++ ":image-signature-content:" ++ selectors.content] else []) ++
  (if selectors.logID != "" then
    [containerID ++ ":image-signature-logid:" ++ selectors.logID] else []) ++
  (if selectors.integratedTime != "" then
    [containerID ++ ":image-signature-integrated-time:" ++ selectors.integratedTime] else [])

/-- The selector-rendering block at the end of `AttestContainerSignatures`
(source lines 404-411): when the cached value is non-empty, every
selector's strings followed by the fixed sentinel; else nil. -/
def renderSelectors (value : List SelectorsFromSignatures) (containerID : String) :
    List String :=
  if 0 < value.length then
    ((value.map (fun sel => selectorsToString sel containerID)).flatten)
      ++ [signatureVerifiedSelector]
  else []

/-- A container runtime status, restricted to the two fields read. -/
structure ContainerStatus where
  imageID : String
  containerID : String

/-- `AttestContainerSignatures`: the skip check's error is discarded
(`skip, _ :=`); a skip hit returns only the sentinel; a cache hit renders
the cached value; a miss fetches, extracts, stores and renders. -/
def AttestContainerSignatures (parseReference : String → Except String Ref)
    (fetchImageManifest : Ref → Except String Descriptor) (sha256 : List Nat → String)
    (verifyFunction : Ref → VerifyOut) (skippedImages : Option (List String))
    (allowListEnabled : Bool) (subjectAllowList : Option (List String))
    (cache : Sigstorecache.Cacheimpl (List SelectorsFromSignatures))
    (status : ContainerStatus) :
    GoRes (List String) × Sigstorecache.Cacheimpl (List SelectorsFromSignatures) :=
  let skip := (ShouldSkipImage skippedImages status.imageID).1
  if skip then (GoRes.ok [signatureVerifiedSelector], cache)
  else
    let cacheKey := status.imageID
    match Sigstorecache.GetSignature cache cacheKey with
    | (some cachedSignature, cache1) =>
      (GoRes.ok (renderSelectors cachedSignature.value status.containerID), cache1)
    | (none, cache1) =>
      match FetchImageSignatures parseReference fetchImageManifest sha256 verifyFunction
          status.imageID with
      | Except.error e => (GoRes.err e, cache1)
      | Except.ok sigs =>
        match ExtractSelectorsFromSignatures allowListEnabled subjectAllowList sigs
            status.containerID with
        | GoRes.crash m => (GoRes.crash m, cache1)
        | GoRes.err m => (GoRes.err m, cache1)
        | GoRes.ok selectors =>
          (GoRes.ok (renderSelectors selectors status.containerID),
           Sigstorecache.PutSignature cache1 (Sigstorecache.Item.mk cacheKey selectors))

/-- `url.URL`, restricted to the fields `SetRekorURL` reads. -/
structure URL where
  scheme : String
  host : String
  path : String
deriving Repr, DecidableEq

/-- `SetRekorURL`: the empty string is rejected before parsing; a parse
error is rejected; a present non-`https` scheme is rejected; an empty host
is rejected (whether or not a scheme is present); otherwise the parsed URL
is stored.  `parsed` models `url.Parse rekorURL` (an external call). -/
def SetRekorURL (rekorURL : String) (parsed : Except String URL) : Except String URL :=
  if rekorURL == "" then Except.error "Rekor URL is empty"
  else
    match parsed with
    | Except.error e => Except.error ("Error parsing rekor URI: " ++ e)
    | Except.ok rekorURI =>
      if rekorURI.scheme != "" && rekorURI.scheme != "https" then
        Except.error ("Invalid rekor URL Scheme: " ++ rekorURI.scheme)
      else if rekorURI.host == "" then
        Except.error ("Invalid rekor URL Host: " ++ rekorURI.host)
      else Except.ok rekorURI

end Sigstore

namespace LegacySigstore

open Sigstore (GoRes)

/-- The legacy variant's `Subject` struct (one string field). -/
structure Subject where
  subject : String
deriving Repr, DecidableEq

/-- The legacy variant's `Optional` struct wrapping `Subject`. -/
structure Optional where
  optional : Subject
deriving Repr, DecidableEq

/-- `fmt.Sprintf("%s", x)` for an `Optional` value: Go renders nested
structs with braces, `Optional(Subject(s))` prints as two braces around
`s` on each side. -/
def sprintfOptional (x : Optional) : String :=
  "\x7b\x7b" ++ x.optional.subject ++ "\x7d\x7d"

/-- The regex replacement deleting every `{` and `}` (`[{}]` -> `""`). -/
def removeBraces (s : String) : String :=
  String.mk (s.toList.filter (fun c => !(c.toNat == 123 || c.toNat == 125)))

/-- The legacy `getOnlySubject`: a JSON decode failure is logged and yields
`""`; a successful decode is indexed at `[0]` — an empty or null array
panics; else the first element is formatted and stripped of braces.
`decoded` models `json.Unmarshal([]byte(payload), &selector)`. -/
def getOnlySubject (decoded : Except String (List Optional)) : GoRes String :=
  match decoded with
  | Except.error _ => GoRes.ok ""
  | Except.ok [] => GoRes.crash "index out of range [0] with length 0"
  | Except.ok (x :: _) => GoRes.ok (removeBraces (sprintfOptional x))

end LegacySigstore

namespace Sigstorecache

/-- Lengths are preserved when an element found by `find?` is moved to
the front of the list. -/
theorem length_cons_eraseP_of_find (p : Item α → Bool) (l : List (Item α)) (it : Item α)
    (h : l.find? p = some it) : (it :: l.eraseP p).length = l.length := by
  have hmem : it ∈ l := List.mem_of_find?_eq_some h
  have hp : p it := List.find?_some h
  have := List.length_eraseP_add_one hmem hp
  simpa using this

/-- `GetSignature` and `PutSignature` never change the capacity field. -/
theorem applyOp_size (c : Cacheimpl α) (op : CacheOp α) : (applyOp c op).size = c.size := by
  cases op with
  | get k =>
    simp only [applyOp, GetSignature]
    cases h : getElement c k <;> simp
  | put i =>
    simp only [applyOp, PutSignature]
    cases h : getElement c i.key <;> simp

/-- One operation keeps the item count within capacity, provided the
capacity is at least 1. -/
theorem applyOp_length_le (c : Cacheimpl α) (op : CacheOp α) (hsz : 1 ≤ c.size)
    (hle : c.items.length ≤ c.size) : (applyOp c op).items.length ≤ c.size := by
  cases op with
  | get k =>
    simp only [applyOp, GetSignature]
    cases h : getElement c k with
    | none => simpa using hle
    | some it =>
      simp only
      rw [length_cons_eraseP_of_find _ _ _ h]
      exact hle
  | put i =>
    simp only [applyOp, PutSignature]
    cases h : getElement c i.key with
    | some it =>
      simp only
      rw [length_cons_eraseP_of_find _ _ _ h]
      exact hle
    | none =>
      simp only [List.length_cons]
      by_cases hfull : c.items.length = c.size
      · have : (c.items.length == c.size) = true := by simpa using hfull
        rw [this]
        simp only [if_true]
        have hpos : 1 ≤ c.items.length := le_trans hsz (le_of_eq hfull.symm)
        have : c.items.dropLast.length = c.items.length - 1 := by
          simp [List.length_dropLast]
        rw [this]
        omega
      · have : (c.items.length == c.size) = false := by simpa using hfull
        rw [this]
        simp only [if_false, Bool.false_eq_true]
        omega

end Sigstorecache

namespace Sigstorecache

/-- The bounded-size invariant carried through any operation sequence. -/
theorem runOps_length_le (ops : List (CacheOp α)) : ∀ (c : Cacheimpl α), 1 ≤ c.size →
    c.items.length ≤ c.size → (runOps c ops).items.length ≤ (runOps c ops).size := by
  induction ops with
  | nil =>
    intro c _ hle
    simpa [runOps] using hle
  | cons op rest ih =>
    intro c hsz hle
    have hstep : (applyOp c op).items.length ≤ (applyOp c op).size := by
      rw [applyOp_size]
      exact applyOp_length_le c op hsz hle
    have hsz' : 1 ≤ (applyOp c op).size := by
      rw [applyOp_size]; exact hsz
    have := ih (applyOp c op) hsz' (by rw [applyOp_size] at hstep ⊢; exact hstep)
    simpa [runOps, List.foldl_cons] using this

/-- The capacity field survives any operation sequence. -/
theorem runOps_size (ops : List (CacheOp α)) : ∀ (c : Cacheimpl α),
    (runOps c ops).size = c.size := by
  induction ops with
  | nil => intro c; simp [runOps]
  | cons op rest ih =>
    intro c
    have := ih (applyOp c op)
    simpa [runOps, List.foldl_cons, applyOp_size] using this

end Sigstorecache

namespace Sigstorecache

/-- Absorption of an inner `take` under append. -/
theorem take_append_take (n : Nat) (xs ys : List β) :
    (xs ++ ys.take n).take n = (xs ++ ys).take n := by
  rw [List.take_append_eq_append_take, List.take_append_eq_append_take, List.take_take]
  congr 1
  rw [Nat.min_comm, Nat.min_eq_right (Nat.sub_le n xs.length)]

/-- `PutSignature` never changes the capacity field. -/
theorem putSignature_size (c : Cacheimpl α) (i : Item α) :
    (PutSignature c i).size = c.size := by
  rw [PutSignature]
  cases h : getElement c i.key <;> simp

/-- A put of a key not present in the cache keeps the newest `size` items:
the new item in front of the old list, truncated to capacity. -/
theorem putSignature_fresh_items (c : Cacheimpl α) (i : Item α) (hsz : 1 ≤ c.size)
    (hfresh : ∀ j ∈ c.items, i.key ≠ j.key) (hle : c.items.length ≤ c.size) :
    (PutSignature c i).items = (i :: c.items).take c.size := by
  have hnone : getElement c i.key = none := by
    rw [getElement, List.find?_eq_none]
    intro j hj
    simpa using fun h => (hfresh j hj) h.symm
  rw [PutSignature, hnone]
  by_cases hfull : c.items.length = c.size
  · have hb : (c.items.length == c.size) = true := by simpa using hfull
    simp only [hb, if_true]
    obtain ⟨k, hk⟩ : ∃ k, c.size = k + 1 := ⟨c.size - 1, by omega⟩
    rw [hk, List.take_succ_cons, List.dropLast_eq_take]
    have hlen : c.items.length - 1 = k := by omega
    rw [hlen]
  · have hb : (c.items.length == c.size) = false := by simpa using hfull
    simp only [hb, Bool.false_eq_true, if_false]
    rw [List.take_of_length_le]
    simp only [List.length_cons]
    omega

/-- Folding puts of keys fresh for the cache and mutually distinct yields
exactly the newest `size` items: the reversed put order followed by the
previous contents, truncated to capacity. -/
theorem putAll_fresh_items (its : List (Item α)) : ∀ (c : Cacheimpl α), 1 ≤ c.size →
    (∀ i ∈ its, ∀ j ∈ c.items, i.key ≠ j.key) →
    (its.map Item.key).Nodup →
    c.items.length ≤ c.size →
    (putAll c its).items = (its.reverse ++ c.items).take c.size := by
  induction its with
  | nil =>
    intro c _ _ _ hle
    simp [putAll, List.take_of_length_le hle]
  | cons i rest ih =>
    intro c hsz hdisj hnd hle
    have hfresh : ∀ j ∈ c.items, i.key ≠ j.key :=
      fun j hj => hdisj i (List.mem_cons_self i rest) j hj
    have hstep := putSignature_fresh_items c i hsz hfresh hle
    have hstepsz := putSignature_size c i
    have hnd' : (rest.map Item.key).Nodup := by
      rw [List.map_cons, List.nodup_cons] at hnd
      exact hnd.2
    have hkey_notin : i.key ∉ rest.map Item.key := by
      rw [List.map_cons, List.nodup_cons] at hnd
      exact hnd.1
    have hdisj' : ∀ i' ∈ rest, ∀ j ∈ (PutSignature c i).items, i'.key ≠ j.key := by
      intro i' hi' j hj
      rw [hstep] at hj
      have hj' : j ∈ i :: c.items := List.mem_of_mem_take hj
      rcases List.mem_cons.mp hj' with hji | hjc
      · subst hji
        intro hkeq
        exact hkey_notin (hkeq ▸ List.mem_map_of_mem Item.key hi')
      · exact hdisj i' (List.mem_cons_of_mem i hi') j hjc
    have hle' : (PutSignature c i).items.length ≤ c.size := by
      rw [hstep]
      simp [List.length_take]
    have hsz' : 1 ≤ (PutSignature c i).size := by rw [hstepsz]; exact hsz
    have hput : putAll c (i :: rest) = putAll (PutSignature c i) rest := by
      simp [putAll, List.foldl_cons]
    have hmain := ih (PutSignature c i) hsz' hdisj' hnd' (by rw [hstepsz]; exact hle')
    rw [hput, hmain, hstep, hstepsz, take_append_take]
    congr 1
    simp [List.reverse_cons, List.append_assoc]

/-- `putAll` never changes the capacity field. -/
theorem putAll_size (its : List (Item α)) : ∀ (c : Cacheimpl α),
    (putAll c its).size = c.size := by
  induction its with
  | nil => intro c; simp [putAll]
  | cons i rest ih =>
    intro c
    have hput : putAll c (i :: rest) = putAll (PutSignature c i) rest := by
      simp [putAll, List.foldl_cons]
    rw [hput, ih, putSignature_size]


end Sigstorecache

namespace Sigstorecache

/-- `getElement` misses exactly when no stored item carries the key. -/
theorem getElement_eq_none_iff (c : Cacheimpl α) (key : String) :
    getElement c key = none ↔ ∀ i ∈ c.items, i.key ≠ key := by
  rw [getElement, List.find?_eq_none]
  constructor
  · intro h i hi
    simpa using h i hi
  · intro h i hi
    simpa using h i hi

/-- The result component of `GetSignature` is `nil` exactly when
`getElement` misses. -/
theorem getSignature_fst_none_iff (c : Cacheimpl α) (key : String) :
    (GetSignature c key).1 = none ↔ getElement c key = none := by
  simp only [GetSignature]
  cases h : getElement c key <;> simp

/-- `GetSignature` returns a present item whenever some stored item
carries the key. -/
theorem getSignature_fst_isSome (c : Cacheimpl α) (key : String)
    (h : ∃ i ∈ c.items, i.key = key) : ((GetSignature c key).1).isSome := by
  simp only [GetSignature]
  cases hge : getElement c key with
  | some it => simp
  | none =>
    exfalso
    rw [getElement, List.find?_eq_none] at hge
    obtain ⟨i, hi, hk⟩ := h
    have hne : i.key ≠ key := by simpa using hge i hi
    exact hne hk

end Sigstorecache

open Sigstorecache Sigstore LegacySigstore

/-- C1: the claim says `PutSignature` on an existing key overwrites the
stored value so that a subsequent `GetSignature` returns the new value.
Evaluating the embedded cache at the failing input shows otherwise: after
putting key `"k"` with value `1` and again with value `2` into a
capacity-2 cache, `GetSignature "k"` still returns the OLD value `1` —
`PutSignature` only moves the found element to the front and returns.
This contradicts the package's own test (`TestCacheimpl_PutSignature`),
which expects the re-put key to return the new value. -/
theorem c1_put_existing_key_keeps_old_value :
    (GetSignature
      (PutSignature (PutSignature (NewCache Nat 2) (Item.mk "k" 1)) (Item.mk "k" 2))
      "k").1 = some (Item.mk "k" 1) := by decide

/-- C5: LRU eviction.  For capacity `N ≥ 1`, after putting `N + 1` items
with pairwise-distinct keys in order into a fresh cache, the
first-inserted key is absent (`nil`), every later key is present, and any
key never inserted is absent — never a zero-valued item. -/
theorem c5_lru_eviction (N : Nat) (hN : 1 ≤ N) (i0 : Item α) (rest : List (Item α))
    (hlen : (i0 :: rest).length = N + 1)
    (hnd : ((i0 :: rest).map Item.key).Nodup) :
    ((GetSignature (putAll (NewCache α N) (i0 :: rest)) i0.key).1 = none) ∧
    (∀ i ∈ rest, ((GetSignature (putAll (NewCache α N) (i0 :: rest)) i.key).1).isSome) ∧
    (∀ k, k ∉ (i0 :: rest).map Item.key →
      (GetSignature (putAll (NewCache α N) (i0 :: rest)) k).1 = none) := by
  have hrestlen : rest.length = N := by
    simpa using hlen
  have hitems : (putAll (NewCache α N) (i0 :: rest)).items = rest.reverse := by
    have h := putAll_fresh_items (i0 :: rest) (NewCache α N)
      (by simpa [NewCache] using hN) (by simp [NewCache]) hnd (by simp [NewCache])
    rw [h]
    simp only [NewCache, List.append_nil, List.reverse_cons]
    rw [List.take_append_eq_append_take]
    have h1 : rest.reverse.length = N := by simpa using hrestlen
    rw [List.take_of_length_le (le_of_eq h1), h1]
    simp
  have hndc := hnd
  rw [List.map_cons, List.nodup_cons] at hndc
  refine ⟨?_, ?_, ?_⟩
  · rw [getSignature_fst_none_iff, getElement_eq_none_iff, hitems]
    intro i hi
    intro hk
    exact hndc.1 (hk ▸ List.mem_map_of_mem Item.key (List.mem_reverse.mp hi))
  · intro i hi
    apply getSignature_fst_isSome
    rw [hitems]
    exact ⟨i, List.mem_reverse.mpr hi, rfl⟩
  · intro k hk
    rw [getSignature_fst_none_iff, getElement_eq_none_iff, hitems]
    intro i hi hik
    apply hk
    rw [← hik]
    exact List.mem_map_of_mem Item.key (List.mem_cons_of_mem i0 (List.mem_reverse.mp hi))

/-- C5 witness: capacity 1, two distinct keys put in order; the first key
is then absent. -/
theorem c5_lru_eviction_witness :
    (GetSignature (putAll (NewCache Nat 1) [Item.mk "a" 0, Item.mk "b" 1])
      (Item.mk "a" 0).key).1 = none :=
  (c5_lru_eviction 1 (by decide) (Item.mk "a" 0) [Item.mk "b" 1]
    (by decide) (by decide)).1

/-- C10: the bounded-capacity invariant.  From `NewCache N` with `N ≥ 1`,
any sequence of `GetSignature`/`PutSignature` calls keeps the item count
at most `N`; a put on an existing key leaves the count unchanged; and a
put of a new key at capacity removes the back element before inserting
at the front. -/
theorem c10_cache_capacity_invariant (N : Nat) (hN : 1 ≤ N) (ops : List (CacheOp α)) :
    ((runOps (NewCache α N) ops).items.length ≤ N) ∧
    (∀ c : Cacheimpl α, ∀ i : Item α, (getElement c i.key).isSome →
      (PutSignature c i).items.length = c.items.length) ∧
    (∀ c : Cacheimpl α, ∀ i : Item α, getElement c i.key = none →
      c.items.length = c.size → (PutSignature c i).items = i :: c.items.dropLast) := by
  refine ⟨?_, ?_, ?_⟩
  · have h := runOps_length_le ops (NewCache α N)
      (by simpa [NewCache] using hN) (by simp [NewCache])
    rwa [runOps_size ops (NewCache α N)] at h
  · intro c i hsome
    rw [Option.isSome_iff_exists] at hsome
    obtain ⟨it, hit⟩ := hsome
    rw [PutSignature, hit]
    exact length_cons_eraseP_of_find _ _ _ hit
  · intro c i hnone hfull
    rw [PutSignature, hnone]
    have hb : (c.items.length == c.size) = true := by simpa using hfull
    simp [hb]

/-- C10 witness: capacity 1 with three operations; the count stays within
capacity. -/
theorem c10_cache_capacity_invariant_witness :
    (runOps (NewCache Nat 1)
      [CacheOp.put (Item.mk "a" 0), CacheOp.put (Item.mk "b" 1),
       CacheOp.get "a"]).items.length ≤ 1 :=
  (c10_cache_capacity_invariant 1 (by decide)
    [CacheOp.put (Item.mk "a" 0), CacheOp.put (Item.mk "b" 1), CacheOp.get "a"]).1

/-- C9: `AttestContainerSignatures` discards the error result of
`ShouldSkipImage` (`skip, _ :=`).  With an empty image ID and a non-nil
skip list — the skip check's error case — attestation does not fail at
the skip check: it behaves exactly as it does with no skip list at all,
proceeding to cache lookup and signature fetch. -/
theorem c9_attest_discards_skip_error (l : List String)
    (parseReference : String → Except String Ref)
    (fetchImageManifest : Ref → Except String Descriptor) (sha256 : List Nat → String)
    (verifyFunction : Ref → VerifyOut) (ale : Bool) (sal : Option (List String))
    (cache : Cacheimpl (List SelectorsFromSignatures)) (cid : String) :
    ((ShouldSkipImage (some l) "").2 = some "Image ID is empty") ∧
    (AttestContainerSignatures parseReference fetchImageManifest sha256 verifyFunction
        (some l) ale sal cache (ContainerStatus.mk "" cid) =
      AttestContainerSignatures parseReference fetchImageManifest sha256 verifyFunction
        none ale sal cache (ContainerStatus.mk "" cid)) := by
  constructor
  · simp [ShouldSkipImage]
  · simp [AttestContainerSignatures, ShouldSkipImage]

/-- C6 counterexample: the claim says the validator accepts the empty
string (falling back to the default endpoint) and constrains the host
only when a scheme is present.  The code rejects the empty string
outright, and rejects an empty host even when no scheme is present
(`"path-no-host"` parses with empty scheme and empty host). -/
theorem c6_counterexample :
    (SetRekorURL "" (Except.ok (URL.mk "https" "rekor.sigstore.dev" "/")) =
      Except.error "Rekor URL is empty") ∧
    (SetRekorURL "path-no-host" (Except.ok (URL.mk "" "" "path-no-host")) =
      Except.error ("Invalid rekor URL Host: " ++ "")) := by
  constructor
  · rfl
  · rfl

/-- C6 (amended): `SetRekorURL` succeeds exactly on a non-empty input that
parses to a URL whose scheme is empty or `https` and whose host is
non-empty; every other input — including the empty string — is rejected
with an error before any use of the endpoint. -/
theorem c6_amended_validation (rekorURL : String) (parsed : Except String URL) :
    (∃ u, SetRekorURL rekorURL parsed = Except.ok u) ↔
      (rekorURL ≠ "" ∧ ∃ u, parsed = Except.ok u ∧
        (u.scheme = "" ∨ u.scheme = "https") ∧ u.host ≠ "") := by
  by_cases h0 : rekorURL = ""
  · subst h0
    simp [SetRekorURL]
  · have hb : (rekorURL == "") = false := by simpa using h0
    cases parsed with
    | error e =>
      simp [SetRekorURL, hb]
    | ok u =>
      by_cases hs1 : u.scheme = ""
      · by_cases hh : u.host = ""
        · simp [SetRekorURL, hb, hs1, hh]
        · simp [SetRekorURL, hb, hs1, hh, h0]
      · by_cases hs2 : u.scheme = "https"
        · by_cases hh : u.host = ""
          · simp [SetRekorURL, hb, hs1, hs2, hh]
          · simp [SetRekorURL, hb, hs1, hs2, hh, h0]
        · simp [SetRekorURL, hb, hs1, hs2, h0]

/-- C7 counterexample: the claim says subject extraction never panics,
including for a certificate whose email list is present but empty and a
payload decoding to an empty or null JSON array.  The code indexes
element 0 in both places: `certSubject` panics on a present-but-empty
email slice, and the legacy `getOnlySubject` panics on a decoded empty
(or null) array. -/
theorem c7_counterexample :
    (certSubject (some (Cert.mk (some []) none)) =
      GoRes.crash "index out of range [0] with length 0") ∧
    (getOnlySubject (Except.ok []) =
      GoRes.crash "index out of range [0] with length 0") := by
  constructor
  · rfl
  · rfl

/-- C7 (amended): subject extraction is panic-free on every input except
the degenerate ones the counterexample exhibits: when the certificate's
email and URI slices are each nil or non-empty, `certSubject` returns a
subject; when the decoded payload array is non-empty, `getOnlySubject`
returns a subject; and a JSON decode failure always degrades to the
empty subject without a crash. -/
theorem c7_amended_no_crash (c : Cert) (d : Except String (List Optional))
    (hce : c.emailAddresses ≠ some []) (hcu : c.uris ≠ some [])
    (hd : d ≠ Except.ok []) :
    (∃ s, certSubject (some c) = GoRes.ok s) ∧
    (∃ s, getOnlySubject d = GoRes.ok s) ∧
    (∀ e, d = Except.error e → getOnlySubject d = GoRes.ok "") := by
  refine ⟨?_, ?_, ?_⟩
  · rcases c with ⟨emails, uris⟩
    cases emails with
    | some es =>
      cases es with
      | nil => exact absurd rfl hce
      | cons e tl => exact ⟨e, rfl⟩
    | none =>
      cases uris with
      | some us =>
        cases us with
        | nil => exact absurd rfl hcu
        | cons u tl => exact ⟨stripLeadingSlashes u, rfl⟩
      | none => exact ⟨"", rfl⟩
  · cases d with
    | error e => exact ⟨"", rfl⟩
    | ok l =>
      cases l with
      | nil => exact absurd rfl hd
      | cons x tl => exact ⟨removeBraces (sprintfOptional x), rfl⟩
  · intro e he
    subst he
    rfl

/-- C7 witness: a certificate with a nil email slice and one URI, and a
decoded one-element array, both extract without panic; a decode error
degrades to the empty subject. -/
theorem c7_amended_no_crash_witness :
    (∃ s, certSubject (some (Cert.mk none (some ["https://host/path1"]))) = GoRes.ok s) ∧
    (∃ s, getOnlySubject (Except.ok [Optional.mk (Subject.mk "spirex@example.com")]) =
      GoRes.ok s) ∧
    (∀ e, (Except.ok [Optional.mk (Subject.mk "spirex@example.com")] :
        Except String (List Optional)) = Except.error e →
      getOnlySubject (Except.ok [Optional.mk (Subject.mk "spirex@example.com")]) =
        GoRes.ok "") :=
  c7_amended_no_crash (Cert.mk none (some ["https://host/path1"]))
    (Except.ok [Optional.mk (Subject.mk "spirex@example.com")])
    (by decide) (by decide) (by decide)

/-- C2: `FetchImageSignatures` fails whenever the external verify function
returns a non-nil error or `verified == false`, even when the returned
signature list is non-empty; and it returns a signature list only when
the verify error is nil and `verified` is true — in which case the list
is exactly the one the verify function returned. -/
theorem c2_fetch_rejects_unverified (parseReference : String → Except String Ref)
    (fetchImageManifest : Ref → Except String Descriptor) (sha256 : List Nat → String)
    (verifyFunction : Ref → VerifyOut) (imageName : String) :
    (∀ ref, parseReference imageName = Except.ok ref →
      ((verifyFunction ref).errMsg ≠ none ∨ (verifyFunction ref).verified = false) →
      ∃ e, FetchImageSignatures parseReference fetchImageManifest sha256 verifyFunction
        imageName = Except.error e) ∧
    (∀ sigs, FetchImageSignatures parseReference fetchImageManifest sha256 verifyFunction
        imageName = Except.ok sigs →
      ∃ ref, parseReference imageName = Except.ok ref ∧
        (verifyFunction ref).errMsg = none ∧ (verifyFunction ref).verified = true ∧
        sigs = (verifyFunction ref).sigs) := by
  constructor
  · intro ref href hbad
    simp only [FetchImageSignatures, href]
    cases hv : ValidateImage fetchImageManifest sha256 ref with
    | error e => exact ⟨_, rfl⟩
    | ok b =>
      cases herr : (verifyFunction ref).errMsg with
      | some e => exact ⟨_, rfl⟩
      | none =>
        rcases hbad with hbad | hbad
        · exact absurd herr hbad
        · rw [hbad]
          exact ⟨_, rfl⟩
  · intro sigs hok
    cases hp : parseReference imageName with
    | error e => simp [FetchImageSignatures, hp] at hok
    | ok ref =>
      simp only [FetchImageSignatures, hp] at hok
      refine ⟨ref, rfl, ?_⟩
      cases hv : ValidateImage fetchImageManifest sha256 ref with
      | error e => simp [hv] at hok
      | ok b =>
        simp only [hv] at hok
        cases herr : (verifyFunction ref).errMsg with
        | some e => simp [herr] at hok
        | none =>
          simp only [herr] at hok
          cases hverified : (verifyFunction ref).verified with
          | false => simp [hverified] at hok
          | true =>
            simp only [hverified, if_true] at hok
            exact ⟨rfl, rfl, by injection hok with h; exact h.symm⟩

/-- C2 witness: a digest-qualified reference that validates, with the
verify function returning a non-empty signature list but
`verified == false`: the fetch fails. -/
theorem c2_fetch_rejects_unverified_witness :
    ∃ e, FetchImageSignatures
      (fun _ => Except.ok (Ref.dig "registry/img" "sha256:abc"))
      (fun _ => Except.ok (Descriptor.mk (some [1, 2])))
      (fun _ => "sha256:abc")
      (fun _ => VerifyOut.mk (some [Signature.mk (Except.ok "p") (Except.error "bad")
        (Except.ok none) (Except.ok none)]) false none)
      "registry/img@sha256:abc" = Except.error e :=
  (c2_fetch_rejects_unverified
    (fun _ => Except.ok (Ref.dig "registry/img" "sha256:abc"))
    (fun _ => Except.ok (Descriptor.mk (some [1, 2])))
    (fun _ => "sha256:abc")
    (fun _ => VerifyOut.mk (some [Signature.mk (Except.ok "p") (Except.error "bad")
      (Except.ok none) (Except.ok none)]) false none)
    "registry/img@sha256:abc").1
    (Ref.dig "registry/img" "sha256:abc") rfl (Or.inr rfl)

/-- `validateRefDigest` succeeds only on a digest reference whose digest
string equals the computed one. -/
theorem validateRefDigest_ok_iff (ref : Ref) (digest : String) (b : Bool)
    (h : validateRefDigest ref digest = Except.ok b) :
    b = true ∧ ∃ repo d, ref = Ref.dig repo d ∧ d = digest := by
  cases ref with
  | dig repo d =>
    simp only [validateRefDigest] at h
    by_cases hd : d = digest
    · have hb : (d == digest) = true := by simpa using hd
      simp only [hb, if_true] at h
      exact ⟨by injection h with h2; exact h2.symm, repo, d, rfl, hd⟩
    · have hb : (d == digest) = false := by simpa using hd
      simp [hb] at h
  | tag repo t => simp [validateRefDigest] at h

/-- C8: `ValidateImage` reports success only for a digest-qualified
reference whose manifest bytes hash to the reference digest; differing
digests produce an error, and a tag-only reference never yields success. -/
theorem c8_validate_image (fetchImageManifest : Ref → Except String Descriptor)
    (sha256 : List Nat → String) (ref : Ref) :
    (∀ b, ValidateImage fetchImageManifest sha256 ref = Except.ok b →
      b = true ∧ ∃ repo d desc m, ref = Ref.dig repo d ∧
        fetchImageManifest ref = Except.ok desc ∧ desc.manifest = some m ∧
        sha256 m = d) ∧
    (∀ repo d desc m, ref = Ref.dig repo d → fetchImageManifest ref = Except.ok desc →
      desc.manifest = some m → sha256 m ≠ d →
      ∃ e, ValidateImage fetchImageManifest sha256 ref = Except.error e) ∧
    (∀ repo t, ref = Ref.tag repo t →
      ∀ b, ValidateImage fetchImageManifest sha256 ref ≠ Except.ok b) := by
  refine ⟨?_, ?_, ?_⟩
  · intro b hok
    cases hf : fetchImageManifest ref with
    | error e => simp [ValidateImage, hf] at hok
    | ok desc =>
      simp only [ValidateImage, hf] at hok
      cases hm : desc.manifest with
      | none => simp [hm] at hok
      | some m =>
        simp only [hm] at hok
        obtain ⟨hb, repo, d, href, hd⟩ := validateRefDigest_ok_iff ref (sha256 m) b hok
        exact ⟨hb, repo, d, desc, m, href, rfl, hm, hd.symm⟩
  · intro repo d desc m href hf hm hd
    subst href
    simp only [ValidateImage, hf, hm, validateRefDigest]
    have hb : (d == sha256 m) = false := by
      simp only [beq_eq_false_iff_ne, ne_eq]
      intro h
      exact hd h.symm
    simp [hb]
  · intro repo t href b
    subst href
    cases hf : fetchImageManifest (Ref.tag repo t) with
    | error e => simp [ValidateImage, hf]
    | ok desc =>
      cases hm : desc.manifest with
      | none => simp [ValidateImage, hf, hm]
      | some m => simp [ValidateImage, hf, hm, validateRefDigest]

/-- C8 witness: with matching digest the validation is `ok true` (so the
success characterization applies), and with a mismatching hash it errors. -/
theorem c8_validate_image_witness :
    (true = true ∧ ∃ repo d : String, ∃ desc : Descriptor, ∃ m : List Nat,
      Ref.dig "r" "sha256:abc" = Ref.dig repo d ∧
      (fun _ => (Except.ok (Descriptor.mk (some [7])) : Except String Descriptor))
        (Ref.dig "r" "sha256:abc") = Except.ok desc ∧
      desc.manifest = some m ∧
      (fun _ => "sha256:abc") m = d) ∧
    (∃ e, ValidateImage
      (fun _ => (Except.ok (Descriptor.mk (some [7])) : Except String Descriptor))
      (fun _ => "sha256:other") (Ref.dig "r" "sha256:abc") = Except.error e) := by
  constructor
  · exact (c8_validate_image
      (fun _ => (Except.ok (Descriptor.mk (some [7])) : Except String Descriptor))
      (fun _ => "sha256:abc") (Ref.dig "r" "sha256:abc")).1 true rfl
  · exact (c8_validate_image
      (fun _ => (Except.ok (Descriptor.mk (some [7])) : Except String Descriptor))
      (fun _ => "sha256:other") (Ref.dig "r" "sha256:abc")).2.1 "r" "sha256:abc"
      (Descriptor.mk (some [7])) [7] rfl rfl rfl (by decide)

/-- C3: subject derivation precedence.  For a signature whose payload
parses (and whose accessors succeed), the payload's `optional.subject`
is the subject when no certificate is present; a certificate overrides
it: first email when emails exist, else first URI with leading slashes
stripped, else the empty subject. -/
theorem c3_subject_precedence (s : Signature) (ss : SimpleContainerImage)
    (co : Option Cert) (pl : String) (hp : s.payload = Except.ok pl)
    (hu : s.unmarshal = Except.ok ss) (hc : s.cert = Except.ok co) :
    (co = none → getSignatureSubject (some s) = GoRes.ok (payloadSubject ss)) ∧
    (∀ c e es, co = some c → c.emailAddresses = some (e :: es) →
      getSignatureSubject (some s) = GoRes.ok e) ∧
    (∀ c u us, co = some c → c.emailAddresses = none → c.uris = some (u :: us) →
      getSignatureSubject (some s) = GoRes.ok (stripLeadingSlashes u)) ∧
    (∀ c, co = some c → c.emailAddresses = none → c.uris = none →
      getSignatureSubject (some s) = GoRes.ok "") := by
  refine ⟨?_, ?_, ?_, ?_⟩
  · intro hco
    subst hco
    simp [getSignatureSubject, hp, hu, hc]
  · intro c e es hco he
    subst hco
    simp [getSignatureSubject, hp, hu, hc, certSubject, he]
  · intro c u us hco he hu2
    subst hco
    simp [getSignatureSubject, hp, hu, hc, certSubject, he, hu2]
  · intro c hco he hu2
    subst hco
    simp [getSignatureSubject, hp, hu, hc, certSubject, he, hu2]

/-- C3 witness: payload subject `"a@x.com"` and certificate email
`"b@x.com"` derive `"b@x.com"` — the certificate wins. -/
theorem c3_subject_precedence_witness :
    getSignatureSubject (some (Signature.mk (Except.ok "payload")
      (Except.ok (SimpleContainerImage.mk (some [("subject", JsonVal.str "a@x.com")])))
      (Except.ok (some (Cert.mk (some ["b@x.com"]) none)))
      (Except.ok none))) = GoRes.ok "b@x.com" :=
  (c3_subject_precedence
    (Signature.mk (Except.ok "payload")
      (Except.ok (SimpleContainerImage.mk (some [("subject", JsonVal.str "a@x.com")])))
      (Except.ok (some (Cert.mk (some ["b@x.com"]) none)))
      (Except.ok none))
    (SimpleContainerImage.mk (some [("subject", JsonVal.str "a@x.com")]))
    (some (Cert.mk (some ["b@x.com"]) none)) "payload" rfl rfl rfl).2.1
    (Cert.mk (some ["b@x.com"]) none) "b@x.com" [] rfl rfl

/-- A signature whose subject extraction fails or yields the empty subject
contributes nothing to the loop of `ExtractSelectorsFromSignatures`. -/
theorem extractLoop_skips_empty (ale : Bool) (sal : Option (List String)) (cid : String)
    (s : Signature)
    (hsel : SelectorValuesFromSignature ale sal (some s) cid = GoRes.ok emptySelectors) :
    ∀ pre post, extractLoop ale sal cid (pre ++ s :: post) =
      extractLoop ale sal cid (pre ++ post) := by
  intro pre post
  induction pre with
  | nil =>
    simp only [List.nil_append, extractLoop, hsel]
    cases h : extractLoop ale sal cid post <;> simp [emptySelectors]
  | cons p pre ih =>
    simp only [List.cons_append, extractLoop, List.append_eq, ih]

/-- C4: a signature with an empty payload, an unparseable payload, or no
subject by either path yields the all-empty, `verified = false` record
with no error propagated, and the batch continues: extraction over a list
containing such a signature equals extraction with it removed. -/
theorem c4_bad_signature_contained (ale : Bool) (sal : Option (List String))
    (cid : String) (s : Signature)
    (hbad : (∃ e, getSignatureSubject (some s) = GoRes.err e) ∨
      getSignatureSubject (some s) = GoRes.ok "") :
    (SelectorValuesFromSignature ale sal (some s) cid = GoRes.ok emptySelectors) ∧
    (∀ pre post, ExtractSelectorsFromSignatures ale sal (some (pre ++ s :: post)) cid =
      ExtractSelectorsFromSignatures ale sal (some (pre ++ post)) cid) := by
  have hsel : SelectorValuesFromSignature ale sal (some s) cid = GoRes.ok emptySelectors := by
    rcases hbad with ⟨e, he⟩ | hok
    · simp [SelectorValuesFromSignature, he]
    · simp [SelectorValuesFromSignature, hok]
  refine ⟨hsel, ?_⟩
  intro pre post
  simp only [ExtractSelectorsFromSignatures]
  exact extractLoop_skips_empty ale sal cid s hsel pre post

/-- C4 witness: an empty payload (whose unmarshal fails) is contained —
the record is the zero record, and a batch around it is unaffected. -/
theorem c4_bad_signature_contained_witness :
    (SelectorValuesFromSignature false none (some (Signature.mk (Except.ok "")
      (Except.error "unexpected end of JSON input") (Except.ok none) (Except.ok none)))
      "c1" = GoRes.ok emptySelectors) ∧
    (∀ pre post, ExtractSelectorsFromSignatures false none
        (some (pre ++ (Signature.mk (Except.ok "")
          (Except.error "unexpected end of JSON input") (Except.ok none)
          (Except.ok none)) :: post)) "c1" =
      ExtractSelectorsFromSignatures false none (some (pre ++ post)) "c1") :=
  c4_bad_signature_contained false none "c1"
    (Signature.mk (Except.ok "") (Except.error "unexpected end of JSON input")
      (Except.ok none) (Except.ok none))
    (Or.inl ⟨"unexpected end of JSON input", rfl⟩)
